import Mathlib

/-!
Shallow embedding of the diff-to-inline-comment mapping pipeline of
`scripts/LLMReview.py`, together with proofs about it.

Python `str` values are modelled as `List Char` (`PyStr`); Python exceptions
that are raised and caught inside the functions under study are modelled with
`Except Unit` / `Option`.  The functions below are direct translations of the
corresponding Python functions, keeping the source's control flow.
-/

namespace LLMReview

/-- A Python `str`, modelled as its list of characters. -/
abbrev PyStr := List Char

/-- Build a `PyStr` from a Lean string literal (used for concrete inputs). -/
def str (s : String) : PyStr := s.data

/-- Models Python `s.split(sep)` for a single-character separator `sep`:
splits on every occurrence, keeping empty pieces, and returns `[[]]` on the
empty string. -/
def pySplit (sep : Char) : PyStr → List PyStr
  | [] => [[]]
  | c :: cs =>
    match pySplit sep cs with
    | [] => [[c]]
    | w :: ws => if c = sep then [] :: w :: ws else (c :: w) :: ws

/-- `diff_text.split('\n')` as performed by `extract_file_line_number`. -/
def pyLines (s : PyStr) : List PyStr := pySplit '\n' s

/-- Models Python `s.startswith(pre)`. -/
def pyStartsWith (s pre : PyStr) : Bool := pre.isPrefixOf s

/-- Models Python slicing `s[n:]` for a non-negative `n`. -/
def pyDrop (s : PyStr) (n : Nat) : PyStr := s.drop n

/-- Models Python `s.upper()` (ASCII letters, which is all the program uses). -/
def pyUpper (s : PyStr) : PyStr := s.map Char.toUpper

/-- Numeric value of a list of decimal digit characters. -/
def digitsVal (ds : PyStr) : Nat := ds.foldl (fun a c => a * 10 + (c.toNat - 48)) 0

/-- Strip leading and trailing whitespace, as Python `int()` does. -/
def pyStrip (s : PyStr) : PyStr :=
  ((s.dropWhile Char.isWhitespace).reverse.dropWhile Char.isWhitespace).reverse

/-- Models Python `int(s)` on a `str`: optional surrounding whitespace, an
optional sign, then at least one ASCII decimal digit.  Returns `none` where
Python raises `ValueError`.  (Underscore digit grouping and non-ASCII digits
are not modelled; the program only ever meets ASCII references.) -/
def pyInt? (s : PyStr) : Option Int :=
  match pyStrip s with
  | [] => none
  | '+' :: ds =>
    if ds ≠ [] ∧ ds.all Char.isDigit then some (digitsVal ds) else none
  | '-' :: ds =>
    if ds ≠ [] ∧ ds.all Char.isDigit then some (-(digitsVal ds : Int)) else none
  | c :: ds =>
    if (c :: ds).all Char.isDigit then some (digitsVal (c :: ds)) else none

/-- Models Python list indexing `l[i]` with negative-index wrap-around:
`some` of the element, or `none` where Python raises `IndexError`. -/
def pyIndex (l : List PyStr) (i : Int) : Option PyStr :=
  let j := if i < 0 then i + l.length else i
  if 0 ≤ j ∧ j < (l.length : Int) then l.get? j.toNat else none

/-- `'+++ b/'`, the new-file marker checked by the scan. -/
def strPPPb : PyStr := ['+', '+', '+', ' ', 'b', '/']

/-- `'@@'`, the hunk-header marker. -/
def strAtAt : PyStr := ['@', '@']

/-- `'+'`. -/
def strPlus : PyStr := ['+']

/-- `'-'`. -/
def strMinus : PyStr := ['-']

/-- `' '`. -/
def strSpace : PyStr := [' ']

/-- `'001'`, the default reference substituted by `main` when a raw comment
has no `numbered_line` key. -/
def str001 : PyStr := ['0', '0', '1']

/-- `'RIGHT'`, the side marker of every projected comment. -/
def strRIGHT : PyStr := ['R', 'I', 'G', 'H', 'T']

/-- Hunk-header parsing, lines 123-128 of `LLMReview.py`:
`parts = line.split(' ')`; when `len(parts) >= 3` and `parts[2]` starts with
`'+'`, evaluate `int(parts[2][1:].split(',')[0])`.  `.error` models the
`ValueError` raised by `int` on an unparseable new-range start, `.ok none`
means the header left `new_line_num` untouched, `.ok (some v)` is a parsed
new-range start `v`. -/
def hunkNewStart (line : PyStr) : Except Unit (Option Int) :=
  let parts := pySplit ' ' line
  if 3 ≤ parts.length then
    let new_part := parts.getD 2 []
    if pyStartsWith new_part strPlus = true then
      match pyInt? ((pySplit ',' (pyDrop new_part 1)).getD 0 []) with
      | none => .error ()
      | some v => .ok (some v)
    else .ok none
  else .ok none

/-- Result of processing one raw diff line in the scan of
`extract_file_line_number`: either the `ValueError` of a bad hunk header, or
the next `(current_file, new_line_num)` state together with whether the line
was counted as a content line of the requested file. -/
inductive StepRes where
  | err : StepRes
  | state : Option PyStr → Int → Bool → StepRes
  deriving DecidableEq

/-- One iteration of the `for i in range(line_num)` loop body of
`extract_file_line_number` (lines 114-136), minus the early return: the
`'+++ b/'` branch, the `'@@'` branch and the content-counting branch. -/
def lineStep (fp : PyStr) (cur : Option PyStr) (n : Int) (line : PyStr) : StepRes :=
  if pyStartsWith line strPPPb = true then .state (some (pyDrop line 6)) n false
  else if pyStartsWith line strAtAt = true then
    match hunkNewStart line with
    | .error _ => .err
    | .ok none => .state cur n false
    | .ok (some v) => .state cur (v - 1) false
  else if cur = some fp ∧ (pyStartsWith line strPlus = true ∨ pyStartsWith line strSpace = true) then
    .state cur (n + 1) true
  else .state cur n false

/-- The scan loop of `extract_file_line_number`: process the first `k` lines
of the list, returning `(new_line_num, True)` via the early return when the
last processed line is counted, `(0, False)` when the loop exhausts, and
`.error` for an uncaught-inside-the-loop `ValueError`. -/
def scanFrom (fp : PyStr) : List PyStr → Nat → Option PyStr → Int → Except Unit (Int × Bool)
  | _, 0, _, _ => .ok (0, false)
  | [], _ + 1, _, _ => .ok (0, false)
  | line :: rest, k + 1, cur, n =>
    match lineStep fp cur n line with
    | .err => .error ()
    | .state cur' n' counted =>
      if counted = true ∧ k = 0 then .ok (n', true)
      else scanFrom fp rest k cur' n'

/-- Direct translation of `extract_file_line_number(numbered_line, diff_text,
file_path)` (lines 94-140 of `LLMReview.py`).  The Python `try`/`except
(ValueError, IndexError)` is modelled by the `none`/`.error` branches all
returning `(0, false)`. -/
def extract_file_line_number (numbered_line diff_text file_path : PyStr) : Int × Bool :=
  match pyInt? numbered_line with
  | none => (0, false)
  | some line_num =>
    if line_num > ((pyLines diff_text).length : Int) then (0, false)
    else
      match pyIndex (pyLines diff_text) (line_num - 1) with
      | none => (0, false)
      | some target_line =>
        if pyStartsWith target_line strPlus = false ∧ pyStartsWith target_line strMinus = false then
          (0, false)
        else
          match scanFrom file_path (pyLines diff_text) line_num.toNat none 0 with
          | .error _ => (0, false)
          | .ok r => r

/-- A raw model comment, the dictionaries read back from the LLM response in
`main`.  Each field is `some` exactly when the corresponding key is present in
the dictionary (wrong-typed values are not modelled separately). -/
structure RawComment where
  file_path : Option PyStr
  numbered_line : Option PyStr
  level : Option PyStr
  comment : Option PyStr
  deriving DecidableEq

/-- A hosting-platform comment payload as built in `main` (lines 232-237). -/
structure ProjectedComment where
  path : PyStr
  line : Int
  side : PyStr
  body : PyStr
  deriving DecidableEq

/-- The f-string `f"**{c['level'].upper()}**: {c['comment']}"`. -/
def fmtBody (level comment : PyStr) : PyStr :=
  ['*', '*'] ++ pyUpper level ++ ['*', '*', ':', ' '] ++ comment

/-- The comment-projection loop of `main` (lines 224-239): for each raw
comment, read `numbered_line` defensively with default `'001'`, resolve it via
`extract_file_line_number` against `c["file_path"]`, and keep the comment only
when the resolution is a positive valid change line.  `.error ()` models the
`KeyError` raised by `c["file_path"]` (or, on a kept comment, by `c["level"]`
or `c["comment"]`), which escapes the loop to the `except` of line 243. -/
def projectComments (diff_text : PyStr) : List RawComment → Except Unit (List ProjectedComment)
  | [] => .ok []
  | c :: rest =>
    match c.file_path with
    | none => .error ()
    | some fp =>
      let nl := c.numbered_line.getD str001
      let r := extract_file_line_number nl diff_text fp
      if 0 < r.1 ∧ r.2 = true then
        match c.level, c.comment with
        | some lv, some cm =>
          match projectComments diff_text rest with
          | .error e => .error e
          | .ok ps => .ok (⟨fp, r.1, strRIGHT, fmtBody lv cm⟩ :: ps)
        | _, _ => .error ()
      else
        projectComments diff_text rest

/-- Per-comment projection outcome, used to state that the loop is an
order-preserving filter: `some` of the payload for a kept comment, `none` for
a dropped one (defined on comments whose required keys are present). -/
def projectOne (diff_text : PyStr) (c : RawComment) : Option ProjectedComment :=
  match c.file_path, c.level, c.comment with
  | some fp, some lv, some cm =>
    let nl := c.numbered_line.getD str001
    let r := extract_file_line_number nl diff_text fp
    if 0 < r.1 ∧ r.2 = true then some ⟨fp, r.1, strRIGHT, fmtBody lv cm⟩ else none
  | _, _, _ => none

/-- What `GitHubClient.submit_review` does with a comment list: lines 59-61
print an informational message and return without any API call when the list
is empty; otherwise a review payload is posted. -/
inductive SubmitAction where
  | skipped : SubmitAction
  | posted : List ProjectedComment → SubmitAction
  deriving DecidableEq

/-- `GitHubClient.submit_review` (lines 57-68), with the HTTP call abstracted
to the `posted` action: `if not comments: print(...); return`. -/
def submit_review (comments : List ProjectedComment) : SubmitAction :=
  if comments = [] then .skipped else .posted comments

/-- The raw diff line that `extract_file_line_number` inspects for its
`is_change_line` check: the reference parsed by `int`, bounds-checked against
the raw line count, then used as a (possibly negative) Python index. -/
def targetLine (numbered_line diff_text : PyStr) : Option PyStr :=
  match pyInt? numbered_line with
  | none => none
  | some line_num =>
    if line_num > ((pyLines diff_text).length : Int) then none
    else pyIndex (pyLines diff_text) (line_num - 1)

/-- The `current_file` update of the scan in isolation (lines 118-119). -/
def fileStep (acc : Option PyStr) (line : PyStr) : Option PyStr :=
  if pyStartsWith line strPPPb = true then some (pyDrop line 6) else acc

/-- The `current_file` value the scan holds after processing the first `k`
raw lines of the diff. -/
def fileAt (lines : List PyStr) (k : Nat) : Option PyStr :=
  (lines.take k).foldl fileStep none

/-- The `(current_file, new_line_num)` state after processing a list of raw
lines without reaching the target: `lineStep` folded over the list, with the
hunk-header `ValueError` propagated. -/
def foldSteps (fp : PyStr) : Option PyStr → Int → List PyStr → Except Unit (Option PyStr × Int)
  | cur, n, [] => .ok (cur, n)
  | cur, n, line :: rest =>
    match lineStep fp cur n line with
    | .err => .error ()
    | .state cur' n' _ => foldSteps fp cur' n' rest

/-- A raw diff line counted by the scan as a line of the new file: an added
or context line. -/
def isContentLine (line : PyStr) : Bool :=
  pyStartsWith line strPlus || pyStartsWith line strSpace

/-- The literal reading of C9's conclusion: for some diff text, file path and
reference parsing to a non-positive integer, resolution returns something
other than `(0, false)` (a valid change line). -/
def c9ClaimProp : Prop :=
  ∃ (nl d fp : PyStr) (k : Int),
    pyInt? nl = some k ∧ k ≤ 0 ∧ extract_file_line_number nl d fp ≠ (0, false)

/-! ### Basic lemmas about the string primitives -/

theorem pyStartsWith_cons {l : PyStr} {c : Char} {p : PyStr} :
    pyStartsWith l (c :: p) = true ↔ ∃ t, l = c :: t ∧ pyStartsWith t p = true := by
  cases l with
  | nil => simp [pyStartsWith, List.isPrefixOf]
  | cons b bs =>
    simp only [pyStartsWith, List.isPrefixOf, Bool.and_eq_true, beq_iff_eq, List.cons.injEq]
    constructor
    · rintro ⟨rfl, h⟩; exact ⟨bs, ⟨rfl, rfl⟩, h⟩
    · rintro ⟨t, ⟨rfl, rfl⟩, h⟩; exact ⟨rfl, h⟩

theorem pyStartsWith_head {l : PyStr} {c : Char} {p : PyStr}
    (h : pyStartsWith l (c :: p) = true) : ∃ t, l = c :: t := by
  obtain ⟨t, ht, _⟩ := pyStartsWith_cons.mp h
  exact ⟨t, ht⟩

theorem pyStartsWith_head_ne {l : PyStr} {c c' : Char} {p p' : PyStr} (hcc : c ≠ c')
    (h : pyStartsWith l (c :: p) = true) : pyStartsWith l (c' :: p') = false := by
  obtain ⟨t, rfl⟩ := pyStartsWith_head h
  cases hb : pyStartsWith (c :: t) (c' :: p') with
  | false => rfl
  | true =>
    obtain ⟨t', ht'⟩ := pyStartsWith_head hb
    exact absurd (List.cons.injEq .. ▸ ht').1 hcc

theorem pyIndex_append {pre : List PyStr} {t : PyStr} {tail : List PyStr} :
    pyIndex (pre ++ t :: tail) ((pre.length : Int)) = some t := by
  unfold pyIndex
  have h0 : ¬ ((pre.length : Int) < 0) := by omega
  have hlen : (pre ++ t :: tail).length = pre.length + (tail.length + 1) := by
    simp [List.length_append]
  rw [if_neg h0]
  have hb : (0 : Int) ≤ (pre.length : Int) ∧
      (pre.length : Int) < (((pre ++ t :: tail).length : Nat) : Int) := by
    constructor
    · omega
    · rw [hlen]; push_cast; omega
  rw [if_pos hb, Int.toNat_natCast]
  rw [List.get?_append_right (Nat.le_refl _)]
  simp

/-! ### Lemmas about the scan of `extract_file_line_number` -/

theorem lineStep_cur {fp line : PyStr} {cur cur' : Option PyStr} {n n' : Int} {b : Bool}
    (h : lineStep fp cur n line = .state cur' n' b) : cur' = fileStep cur line := by
  unfold lineStep at h
  unfold fileStep
  split at h
  · rename_i hc; rw [if_pos hc]; exact (StepRes.state.injEq .. ▸ h).1.symm
  · rename_i hc
    rw [if_neg hc]
    split at h
    · split at h
      · exact absurd h (by simp)
      · exact (StepRes.state.injEq .. ▸ h).1.symm
      · exact (StepRes.state.injEq .. ▸ h).1.symm
    · split at h
      · exact (StepRes.state.injEq .. ▸ h).1.symm
      · exact (StepRes.state.injEq .. ▸ h).1.symm

theorem lineStep_counted {fp line : PyStr} {cur cur' : Option PyStr} {n n' : Int}
    (h : lineStep fp cur n line = .state cur' n' true) :
    cur' = cur ∧ n' = n + 1 ∧ cur = some fp ∧
      (pyStartsWith line strPlus = true ∨ pyStartsWith line strSpace = true) ∧
      pyStartsWith line strPPPb = false ∧ pyStartsWith line strAtAt = false := by
  unfold lineStep at h
  split at h
  · exact absurd h (by simp)
  · rename_i h1
    split at h
    · rename_i h2
      split at h
      · exact absurd h (by simp)
      · exact absurd h (by simp)
      · exact absurd h (by simp)
    · rename_i h2
      split at h
      · rename_i h3
        obtain ⟨hcur, hn, _⟩ := StepRes.state.injEq .. ▸ h
        exact ⟨hcur.symm, hn.symm, h3.1, h3.2,
          Bool.not_eq_true _ ▸ h1, Bool.not_eq_true _ ▸ h2⟩
      · exact absurd h (by simp)

theorem lineStep_content {fp line : PyStr} {n : Int}
    (h1 : pyStartsWith line strPPPb = false) (h2 : pyStartsWith line strAtAt = false)
    (h3 : pyStartsWith line strPlus = true ∨ pyStartsWith line strSpace = true) :
    lineStep fp (some fp) n line = .state (some fp) (n + 1) true := by
  unfold lineStep
  rw [if_neg (by simp [h1]), if_neg (by simp [h2]), if_pos ⟨rfl, h3⟩]

theorem lineStep_other {fp line : PyStr} {cur : Option PyStr} {n : Int}
    (h1 : pyStartsWith line strPPPb = false) (h2 : pyStartsWith line strAtAt = false)
    (h3 : isContentLine line = false) :
    lineStep fp cur n line = .state cur n false := by
  unfold lineStep
  unfold isContentLine at h3
  rw [Bool.or_eq_false_iff] at h3
  rw [if_neg (by simp [h1]), if_neg (by simp [h2]),
    if_neg (by rintro ⟨-, h | h⟩ <;> simp [h3.1, h3.2] at h)]

theorem lineStep_header {fp line : PyStr} {cur : Option PyStr} {n v : Int}
    (h2 : pyStartsWith line strAtAt = true)
    (hh : hunkNewStart line = .ok (some v)) :
    lineStep fp cur n line = .state cur (v - 1) false := by
  have h1 : pyStartsWith line strPPPb = false :=
    pyStartsWith_head_ne (by decide) h2
  unfold lineStep
  rw [if_neg (by simp [h1]), if_pos h2, hh]

theorem lineStep_header_skip {fp line : PyStr} {cur : Option PyStr} {n : Int}
    (h2 : pyStartsWith line strAtAt = true)
    (hh : hunkNewStart line = .ok none) :
    lineStep fp cur n line = .state cur n false := by
  have h1 : pyStartsWith line strPPPb = false :=
    pyStartsWith_head_ne (by decide) h2
  unfold lineStep
  rw [if_neg (by simp [h1]), if_pos h2, hh]

theorem lineStep_header_err {fp line : PyStr} {cur : Option PyStr} {n : Int}
    (h2 : pyStartsWith line strAtAt = true)
    (hh : hunkNewStart line = .error ()) :
    lineStep fp cur n line = .err := by
  have h1 : pyStartsWith line strPPPb = false :=
    pyStartsWith_head_ne (by decide) h2
  unfold lineStep
  rw [if_neg (by simp [h1]), if_pos h2, hh]

theorem scanFrom_ok_false {fp : PyStr} :
    ∀ (ls : List PyStr) (k : Nat) (cur : Option PyStr) (n m : Int),
      scanFrom fp ls k cur n = .ok (m, false) → m = 0 := by
  intro ls
  induction ls with
  | nil =>
    intro k cur n m h
    cases k <;> simp [scanFrom] at h <;> omega
  | cons line rest ih =>
    intro k cur n m h
    cases k with
    | zero => simp [scanFrom] at h; omega
    | succ k =>
      rw [scanFrom] at h
      split at h
      · exact absurd h (by simp)
      · rename_i cur2 n2 counted hls
        split at h
        · exact absurd h (by simp)
        · exact ih k cur2 n2 m h

theorem scanFrom_append {fp : PyStr} :
    ∀ (pre rest : List PyStr) (k : Nat) (cur : Option PyStr) (n : Int), 1 ≤ k →
      scanFrom fp (pre ++ rest) (pre.length + k) cur n =
        match foldSteps fp cur n pre with
        | .error e => .error e
        | .ok (cur', n') => scanFrom fp rest k cur' n' := by
  intro pre
  induction pre with
  | nil => intro rest k cur n _; simp [foldSteps]
  | cons line pre ih =>
    intro rest k cur n hk
    have hlen : (line :: pre).length + k = (pre.length + k) + 1 := by
      simp [List.length_cons]; omega
    rw [hlen, List.cons_append]
    cases hls : lineStep fp cur n line with
    | err => simp only [scanFrom, foldSteps, hls]
    | state cur2 n2 counted =>
      simp only [scanFrom, foldSteps, hls]
      rw [if_neg (by rintro ⟨-, h0⟩; omega)]
      exact ih rest k cur2 n2 hk

theorem scanFrom_one {fp : PyStr} (t : PyStr) (tail : List PyStr) (cur : Option PyStr) (n : Int) :
    scanFrom fp (t :: tail) 1 cur n =
      match lineStep fp cur n t with
      | .err => .error ()
      | .state _ n' counted => if counted = true then .ok (n', true) else .ok (0, false) := by
  cases hls : lineStep fp cur n t with
  | err => simp only [scanFrom, hls]
  | state cur2 n2 counted =>
    cases counted with
    | true => simp only [scanFrom, hls]; simp
    | false => simp only [scanFrom, hls]; simp [scanFrom]

theorem scanFrom_valid {fp : PyStr} :
    ∀ (ls : List PyStr) (k : Nat) (cur : Option PyStr) (n m : Int),
      scanFrom fp ls k cur n = .ok (m, true) →
      ∃ pre t tail cur' n',
        ls = pre ++ t :: tail ∧ pre.length + 1 = k ∧
        foldSteps fp cur n pre = .ok (cur', n') ∧
        lineStep fp cur' n' t = .state cur' (n' + 1) true ∧ m = n' + 1 := by
  intro ls
  induction ls with
  | nil =>
    intro k cur n m h
    cases k <;> simp [scanFrom] at h
  | cons line rest ih =>
    intro k cur n m h
    cases k with
    | zero => simp [scanFrom] at h
    | succ k =>
      rw [scanFrom] at h
      split at h
      · exact absurd h (by simp)
      · rename_i cur2 n2 counted hls
        split at h
        · rename_i hck
          obtain ⟨hc, hk0⟩ := hck
          subst hc hk0
          simp only [Except.ok.injEq, Prod.mk.injEq] at h
          obtain ⟨hm, -⟩ := h
          obtain ⟨hcur, hn, -⟩ := lineStep_counted hls
          refine ⟨[], line, rest, cur, n, rfl, rfl, by simp [foldSteps], ?_, by omega⟩
          rw [hls, hcur, hn]
        · obtain ⟨pre, t, tail, cur', n', hls', hk', hfold, hstep, hm⟩ := ih k cur2 n2 m h
          refine ⟨line :: pre, t, tail, cur', n', by simp [hls'], by simp [List.length_cons]; omega,
            ?_, hstep, hm⟩
          simp only [foldSteps, hls]
          exact hfold

theorem foldSteps_append {fp : PyStr} :
    ∀ (a b : List PyStr) (cur : Option PyStr) (n : Int),
      foldSteps fp cur n (a ++ b) =
        match foldSteps fp cur n a with
        | .error e => .error e
        | .ok (cur', n') => foldSteps fp cur' n' b := by
  intro a
  induction a with
  | nil => intro b cur n; simp [foldSteps]
  | cons line a ih =>
    intro b cur n
    rw [List.cons_append]
    cases hls : lineStep fp cur n line with
    | err => simp only [foldSteps, hls]
    | state cur2 n2 counted =>
      simp only [foldSteps, hls]
      exact ih b cur2 n2

theorem foldSteps_currentFile {fp : PyStr} :
    ∀ (ls : List PyStr) (cur cur' : Option PyStr) (n n' : Int),
      foldSteps fp cur n ls = .ok (cur', n') → cur' = ls.foldl fileStep cur := by
  intro ls
  induction ls with
  | nil =>
    intro cur cur' n n' h
    rw [foldSteps] at h
    have := Except.ok.injEq .. ▸ h
    simp [List.foldl]
    exact ((Prod.mk.injEq .. ▸ this).1).symm
  | cons line rest ih =>
    intro cur cur' n n' h
    rw [foldSteps] at h
    split at h
    · exact absurd h (by simp)
    · rename_i cur2 n2 counted hls
      rw [List.foldl_cons, ← lineStep_cur hls]
      exact ih cur2 cur' n2 n' h

theorem foldSteps_content {fp : PyStr} :
    ∀ (mid : List PyStr) (n : Int),
      (∀ l ∈ mid, pyStartsWith l strAtAt = false ∧ pyStartsWith l strPPPb = false) →
      foldSteps fp (some fp) n mid = .ok (some fp, n + (mid.countP isContentLine : Int)) := by
  intro mid
  induction mid with
  | nil => intro n _; simp [foldSteps]
  | cons line mid ih =>
    intro n h
    have h1 := (h line (List.mem_cons_self line mid)).2
    have h2 := (h line (List.mem_cons_self line mid)).1
    have hrest : ∀ l ∈ mid, pyStartsWith l strAtAt = false ∧ pyStartsWith l strPPPb = false :=
      fun l hl => h l (List.mem_cons_of_mem _ hl)
    cases hc : isContentLine line with
    | true =>
      have h3 : pyStartsWith line strPlus = true ∨ pyStartsWith line strSpace = true := by
        unfold isContentLine at hc
        exact Bool.or_eq_true _ _ ▸ hc
      have harith : n + 1 + (mid.countP isContentLine : Int)
          = n + ((mid.countP isContentLine + 1 : Nat) : Int) := by push_cast; ring
      simp only [foldSteps, lineStep_content h1 h2 h3]
      rw [ih (n + 1) hrest, List.countP_cons_of_pos _ _ hc, harith]
    | false =>
      simp only [foldSteps, @lineStep_other fp line (some fp) n h1 h2 hc]
      rw [ih n hrest, List.countP_cons_of_neg _ _ (by simp [hc])]

/-! ### Lemmas about `extract_file_line_number` as a whole -/

theorem extract_cases (nl d fp : PyStr) :
    (extract_file_line_number nl d fp).2 = true ∨
      extract_file_line_number nl d fp = (0, false) := by
  unfold extract_file_line_number
  split
  · exact Or.inr rfl
  · split
    · exact Or.inr rfl
    · split
      · exact Or.inr rfl
      · split
        · exact Or.inr rfl
        · split
          · exact Or.inr rfl
          · rename_i r hr
            cases hb : r.2 with
            | true => exact Or.inl rfl
            | false =>
              refine Or.inr (Prod.ext ?_ hb)
              have hreq : r = (r.1, false) := by rw [← hb]
              rw [hreq] at hr
              exact scanFrom_ok_false _ _ _ _ _ hr

theorem extract_snd_false {nl d fp : PyStr}
    (h : (extract_file_line_number nl d fp).2 = false) :
    extract_file_line_number nl d fp = (0, false) :=
  (extract_cases nl d fp).resolve_left (fun ht => by rw [h] at ht; exact Bool.false_ne_true ht)

theorem extract_nonpos {nl d fp : PyStr} {k : Int} (hp : pyInt? nl = some k) (hk : k ≤ 0) :
    extract_file_line_number nl d fp = (0, false) := by
  unfold extract_file_line_number
  split
  · rfl
  · rename_i L hL
    rw [hp] at hL
    have hkL : L = k := (Option.some.inj hL).symm
    subst hkL
    split
    · rfl
    · split
      · rfl
      · split
        · rfl
        · have hk0 : L.toNat = 0 := by omega
          rw [hk0]
          simp [scanFrom]

theorem extract_valid {nl d fp : PyStr} {m : Int}
    (h : extract_file_line_number nl d fp = (m, true)) :
    ∃ L pre t tail n',
      pyInt? nl = some L ∧ pyLines d = pre ++ t :: tail ∧
      (pre.length : Int) + 1 = L ∧
      foldSteps fp none 0 pre = .ok (some fp, n') ∧
      lineStep fp (some fp) n' t = .state (some fp) (n' + 1) true ∧
      m = n' + 1 ∧
      targetLine nl d = some t ∧
      (pyStartsWith t strPlus = true ∨ pyStartsWith t strMinus = true) := by
  unfold extract_file_line_number at h
  split at h
  · exact absurd h (by simp)
  · rename_i L hL
    split at h
    · exact absurd h (by simp)
    · rename_i hbound
      split at h
      · exact absurd h (by simp)
      · rename_i t0 ht0
        split at h
        · exact absurd h (by simp)
        · rename_i hch
          split at h
          · exact absurd h (by simp)
          · rename_i r hr
            subst h
            have hr2 : scanFrom fp (pyLines d) L.toNat none 0 = .ok (m, true) := by
              rw [hr]
            obtain ⟨pre, t, tail, cur', n', hls', hk', hfold, hstep, hm⟩ :=
              scanFrom_valid _ _ _ _ _ hr2
            have hL1 : (pre.length : Int) + 1 = L := by omega
            have hcur : cur' = some fp := (lineStep_counted hstep).2.2.1
            subst hcur
            have htt : t0 = t := by
              have h2 : pyIndex (pyLines d) (L - 1) = some t := by
                rw [hls', show L - 1 = (pre.length : Int) by omega]
                exact pyIndex_append
              rw [ht0] at h2
              exact Option.some.inj h2
            subst htt
            refine ⟨L, pre, t0, tail, n', hL, hls', hL1, hfold, hstep, hm, ?_, ?_⟩
            · simp only [targetLine, hL]
              rw [if_neg hbound]
              exact ht0
            · rcases Bool.eq_false_or_eq_true (pyStartsWith t0 strPlus) with hp | hp
              · exact Or.inl hp
              · rcases Bool.eq_false_or_eq_true (pyStartsWith t0 strMinus) with hm' | hm'
                · exact Or.inr hm'
                · exact absurd ⟨hp, hm'⟩ hch

/-! ### Lemmas about the projection loop of `main` -/

theorem projectComments_mem {d : PyStr} :
    ∀ (cs : List RawComment) (ps : List ProjectedComment) (p : ProjectedComment),
      projectComments d cs = .ok ps → p ∈ ps →
      ∃ c ∈ cs, ∃ fp lv cm,
        c.file_path = some fp ∧ c.level = some lv ∧ c.comment = some cm ∧
        extract_file_line_number (c.numbered_line.getD str001) d fp = (p.line, true) ∧
        0 < p.line ∧ p = ⟨fp, p.line, strRIGHT, fmtBody lv cm⟩ := by
  intro cs
  induction cs with
  | nil =>
    intro ps p h hp
    rw [projectComments] at h
    obtain rfl := Except.ok.inj h
    exact absurd hp (List.not_mem_nil p)
  | cons c rest ih =>
    intro ps p h hp
    simp only [projectComments] at h
    split at h
    · exact absurd h (by simp)
    · rename_i fp hfp
      split at h
      · rename_i hkeep
        split at h
        · rename_i lv cm hlv hcm
          split at h
          · exact absurd h (by simp)
          · rename_i ps' hps'
            obtain rfl := Except.ok.inj h
            rcases List.mem_cons.mp hp with rfl | hp'
            · refine ⟨c, List.mem_cons_self c rest, fp, lv, cm, hfp, hlv, hcm, ?_, hkeep.1, rfl⟩
              rw [← hkeep.2]
            · obtain ⟨c', hc', hrest⟩ := ih ps' p hps' hp'
              exact ⟨c', List.mem_cons_of_mem _ hc', hrest⟩
        · exact absurd h (by simp)
      · obtain ⟨c', hc', hrest⟩ := ih ps p h hp
        exact ⟨c', List.mem_cons_of_mem _ hc', hrest⟩

theorem projectComments_filterMap {d : PyStr} :
    ∀ (cs : List RawComment),
      (∀ c ∈ cs, c.file_path.isSome = true ∧ c.level.isSome = true ∧ c.comment.isSome = true) →
      projectComments d cs = .ok (cs.filterMap (projectOne d)) := by
  intro cs
  induction cs with
  | nil => intro _; simp [projectComments]
  | cons c rest ih =>
    intro h
    obtain ⟨hfp0, hlv0, hcm0⟩ := h c (List.mem_cons_self c rest)
    obtain ⟨fp, hfp⟩ := Option.isSome_iff_exists.mp hfp0
    obtain ⟨lv, hlv⟩ := Option.isSome_iff_exists.mp hlv0
    obtain ⟨cm, hcm⟩ := Option.isSome_iff_exists.mp hcm0
    have hrest := ih (fun c' hc' => h c' (List.mem_cons_of_mem _ hc'))
    simp only [projectComments, hfp]
    rw [List.filterMap_cons]
    split
    · rename_i hkeep
      have hone : projectOne d c = some ⟨fp,
          (extract_file_line_number (c.numbered_line.getD str001) d fp).1,
          strRIGHT, fmtBody lv cm⟩ := by
        simp only [projectOne, hfp, hlv, hcm]
        rw [if_pos hkeep]
      rw [hone]
      simp only [hlv, hcm, hrest]
    · rename_i hkeep
      have hone : projectOne d c = none := by
        simp only [projectOne, hfp, hlv, hcm]
        rw [if_neg hkeep]
      rw [hone]
      exact hrest

theorem projectComments_error_of_missing {d : PyStr} :
    ∀ (cs : List RawComment), (∃ c ∈ cs, c.file_path = none) →
      projectComments d cs = .error () := by
  intro cs
  induction cs with
  | nil => rintro ⟨c, hc, -⟩; exact absurd hc (List.not_mem_nil c)
  | cons c rest ih =>
    rintro ⟨c', hc', hnone⟩
    rcases List.mem_cons.mp hc' with rfl | hmem
    · simp only [projectComments, hnone]
    · have hrest : projectComments d rest = .error () := ih ⟨c', hmem, hnone⟩
      simp only [projectComments]
      split
      · rfl
      · split
        · split
          · simp only [hrest]
          · rfl
        · exact hrest

theorem projectComments_dropped {d : PyStr} :
    ∀ (cs : List RawComment),
      (∀ c ∈ cs, ∃ fp, c.file_path = some fp ∧
        ¬(0 < (extract_file_line_number (c.numbered_line.getD str001) d fp).1 ∧
          (extract_file_line_number (c.numbered_line.getD str001) d fp).2 = true)) →
      projectComments d cs = .ok [] := by
  intro cs
  induction cs with
  | nil => intro _; rw [projectComments]
  | cons c rest ih =>
    intro h
    obtain ⟨fp, hfp, hnk⟩ := h c (List.mem_cons_self c rest)
    simp only [projectComments, hfp]
    rw [if_neg hnk]
    exact ih (fun c' hc' => h c' (List.mem_cons_of_mem _ hc'))

/-- When resolution succeeds, the raw line it inspected is an added line:
it starts with `'+'` and is not the `'+++ b/'` file marker, hence neither a
context nor a removed line. -/
theorem extract_valid_added {nl d fp : PyStr} {m : Int}
    (h : extract_file_line_number nl d fp = (m, true)) :
    ∃ t, targetLine nl d = some t ∧ pyStartsWith t strPlus = true ∧
      pyStartsWith t strPPPb = false ∧ pyStartsWith t strSpace = false ∧
      pyStartsWith t strMinus = false := by
  obtain ⟨L, pre, t, tail, n', hL, hlines, hlen, hfold, hstep, hm, htl, hor⟩ :=
    extract_valid h
  obtain ⟨-, -, -, hps, hppp, hat⟩ := lineStep_counted hstep
  rcases hps with hplus | hspace
  · exact ⟨t, htl, hplus, hppp,
      pyStartsWith_head_ne (by decide) hplus,
      pyStartsWith_head_ne (by decide) hplus⟩
  · exfalso
    rcases hor with hplus | hminus
    · have h2 : pyStartsWith t strPlus = false :=
        @pyStartsWith_head_ne t ' ' '+' [] [] (by decide) hspace
      rw [h2] at hplus
      exact Bool.false_ne_true hplus
    · have h2 : pyStartsWith t strMinus = false :=
        @pyStartsWith_head_ne t ' ' '-' [] [] (by decide) hspace
      rw [h2] at hminus
      exact Bool.false_ne_true hminus

/-! ### Claim theorems -/

/-- C2: `extract_file_line_number` returns `(0, false)` whenever the reference
does not parse as an integer, or exceeds the bounds of the raw line sequence,
or the resolved raw line does not belong to the given file path (the
`current_file` replayed up to the target is not `file_path`), or the resolved
raw line is not a change line.  The Python `try` catches the only exceptions
these paths can raise (`ValueError`, `IndexError`), so the function is total
and never propagates an exception: every branch of the model returns. -/
theorem c2_malformed_input_returns_zero_false (nl d fp : PyStr)
    (h : pyInt? nl = none ∨
      (∃ L : Int, pyInt? nl = some L ∧ L > ((pyLines d).length : Int)) ∨
      (∃ L : Int, pyInt? nl = some L ∧ 1 ≤ L ∧ L ≤ ((pyLines d).length : Int) ∧
        fileAt (pyLines d) (L - 1).toNat ≠ some fp) ∨
      (∃ t, targetLine nl d = some t ∧ pyStartsWith t strPlus = false ∧
        pyStartsWith t strMinus = false)) :
    extract_file_line_number nl d fp = (0, false) := by
  rcases h with h | ⟨L, hL, hb⟩ | ⟨L, hL, h1, h2, hfa⟩ | ⟨t, ht, hpl, hmi⟩
  · simp only [extract_file_line_number, h]
  · simp only [extract_file_line_number, hL]
    rw [if_pos hb]
  · rcases extract_cases nl d fp with htrue | hfalse
    · exfalso
      have hext : extract_file_line_number nl d fp =
          ((extract_file_line_number nl d fp).1, true) := by rw [← htrue]
      obtain ⟨L', pre, t, tail, n', hL', hlines, hlen, hfold, hstep, hm, htl, hor⟩ :=
        extract_valid hext
      rw [hL] at hL'
      obtain rfl : L = L' := Option.some.inj hL'
      have hcur : some fp = pre.foldl fileStep none :=
        foldSteps_currentFile pre none (some fp) 0 n' hfold
      refine hfa ?_
      have htake : (pyLines d).take (L - 1).toNat = pre := by
        rw [hlines, show (L - 1).toNat = pre.length by omega]
        exact List.take_left pre (t :: tail)
      rw [fileAt, htake, ← hcur]
    · exact hfalse
  · unfold targetLine at ht
    split at ht
    · exact absurd ht (by simp)
    · rename_i L hL
      split at ht
      · exact absurd ht (by simp)
      · rename_i hbound
        simp only [extract_file_line_number, hL]
        rw [if_neg hbound]
        simp only [ht]
        rw [if_pos ⟨hpl, hmi⟩]

/-- C2 witness: an unparseable reference degrades to `(0, false)`. -/
theorem c2_witness :
    extract_file_line_number (str "junk")
      (str "+++ b/a.ts\n@@ -1,0 +1,2 @@\n+aa\n+bb") (str "a.ts") = (0, false) :=
  c2_malformed_input_returns_zero_false _ _ _ (Or.inl (by decide))

/-- C4 (amended): only the `numbered_line` key is read defensively; a raw
comment missing `file_path` raises `KeyError` inside the projection loop,
which escapes to the surrounding `except` handler and aborts projection of
the whole batch, so the remaining comments are not processed and no review is
submitted (the run itself does not crash). -/
theorem c4_missing_file_path_aborts (d : PyStr) (cs : List RawComment)
    (h : ∃ c ∈ cs, c.file_path = none) :
    projectComments d cs = .error () :=
  projectComments_error_of_missing cs h

/-- C4 witness: a batch containing a comment with no `file_path` key projects
to a structural error. -/
theorem c4_witness :
    projectComments (str "") [⟨none, none, none, none⟩] = .error () :=
  c4_missing_file_path_aborts _ _ ⟨⟨none, none, none, none⟩, List.mem_singleton.mpr rfl, rfl⟩

/-- C4 counterexample: input `[c1(valid), c2(missing file_path), c3(valid)]`
does not project to `[p1, p3]` with the bad comment dropped — the loop aborts
with a structural error at `c2`, losing `p1` and never reaching `c3`. -/
theorem c4_counterexample :
    projectComments (str "+++ b/a.ts\n@@ -1,0 +1,2 @@\n+aa\n+bb")
      [⟨some (str "a.ts"), some (str "3"), some (str "critical"), some (str "x")⟩,
       ⟨none, some (str "4"), some (str "suggestion"), some (str "y")⟩,
       ⟨some (str "a.ts"), some (str "4"), some (str "nitpick"), some (str "z")⟩]
      = .error () ∧
    (Except.error () : Except Unit (List ProjectedComment)) ≠
      .ok [⟨str "a.ts", 1, strRIGHT, fmtBody (str "critical") (str "x")⟩,
           ⟨str "a.ts", 2, strRIGHT, fmtBody (str "nitpick") (str "z")⟩] :=
  ⟨by rfl, fun hcontra => Except.noConfusion hcontra⟩

/-- C5: when every comment of a run is dropped (each resolves to a
non-positive line or an invalid change line), the projected output is the
empty list, and `submit_review` on the empty list takes the no-comments
branch: it returns normally without posting, a valid non-error terminal
state. -/
theorem c5_all_dropped_empty_review (d : PyStr) (cs : List RawComment)
    (h : ∀ c ∈ cs, ∃ fp, c.file_path = some fp ∧
      ¬(0 < (extract_file_line_number (c.numbered_line.getD str001) d fp).1 ∧
        (extract_file_line_number (c.numbered_line.getD str001) d fp).2 = true)) :
    projectComments d cs = .ok [] ∧ submit_review [] = SubmitAction.skipped :=
  ⟨projectComments_dropped cs h, by rw [submit_review]; rfl⟩

/-- C5 witness: a run whose single comment references the `+++ b/` marker
line is dropped, and the resulting empty review is the `skipped` state. -/
theorem c5_witness :
    projectComments (str "+++ b/a.ts\n@@ -1,0 +1,2 @@\n+aa\n+bb")
        [⟨some (str "a.ts"), some (str "1"), some (str "critical"), some (str "x")⟩] = .ok [] ∧
      submit_review [] = SubmitAction.skipped :=
  c5_all_dropped_empty_review _ _ (by
    intro c hc
    rcases List.mem_singleton.mp hc with rfl
    exact ⟨str "a.ts", rfl, by decide⟩)

/-- C9 (amended): the bounds check rejects only references strictly greater
than the number of raw lines; a reference parsing to zero or a negative
integer passes it, and the target lookup is Python negative indexing from the
end of the diff — but the replay loop `for i in range(line_num)` is empty for
a non-positive `line_num`, so the function still returns `(0, false)` for
every non-positive reference instead of ever resolving it as valid. -/
theorem c9_nonpositive_reference (nl d fp : PyStr) (k : Int)
    (hp : pyInt? nl = some k) (hk : k ≤ 0) :
    extract_file_line_number nl d fp = (0, false) ∧
      ¬ (k > ((pyLines d).length : Int)) ∧
      targetLine nl d = pyIndex (pyLines d) (k - 1) := by
  have hb : ¬ (k > ((pyLines d).length : Int)) := by
    have h0 : (0 : Int) ≤ ((pyLines d).length : Int) := Int.natCast_nonneg _
    omega
  refine ⟨extract_nonpos hp hk, hb, ?_⟩
  simp only [targetLine, hp]
  rw [if_neg hb]

/-- C9 witness: reference `'0'` passes the bounds check, is looked up at
Python index `-1`, and still returns `(0, false)`. -/
theorem c9_witness :
    extract_file_line_number (str "0") (str "+aa\n+bb") (str "a.ts") = (0, false) ∧
      ¬ ((0 : Int) > ((pyLines (str "+aa\n+bb")).length : Int)) ∧
      targetLine (str "0") (str "+aa\n+bb") =
        pyIndex (pyLines (str "+aa\n+bb")) (0 - 1) :=
  c9_nonpositive_reference _ _ (str "a.ts") 0 (by decide) (by decide)

/-- C9 counterexample: no diff text at all lets a non-positive reference
resolve — the replay loop ranges over `range(line_num)`, which is empty for
`line_num ≤ 0`, so `(0, false)` is always returned. -/
theorem c9_counterexample : ¬ c9ClaimProp := by
  rintro ⟨nl, d, fp, k, hp, hk, hne⟩
  exact hne (extract_nonpos hp hk)

/-- C10: a raw comment lacking the `numbered_line` key is not dropped for
that reason — `c.get("numbered_line", "001")` substitutes the default
reference `'001'`, which parses to raw diff line 1, and projection proceeds
exactly as if the comment carried `numbered_line = '001'`. -/
theorem c10_default_numbered_line (d : PyStr) (c : RawComment) (rest : List RawComment)
    (h : c.numbered_line = none) :
    projectComments d (c :: rest) =
      projectComments d ({ c with numbered_line := some str001 } :: rest) ∧
    pyInt? str001 = some 1 := by
  refine ⟨?_, by decide⟩
  simp only [projectComments, h, Option.getD_none, Option.getD_some]

/-- C10 witness: a comment with no `numbered_line` key projects identically
to the same comment carrying the explicit reference `'001'`. -/
theorem c10_witness :
    projectComments (str "+aa")
        [⟨some (str "a.ts"), none, some (str "critical"), some (str "x")⟩] =
      projectComments (str "+aa")
        [⟨some (str "a.ts"), some str001, some (str "critical"), some (str "x")⟩] ∧
    pyInt? str001 = some 1 :=
  c10_default_numbered_line (str "+aa")
    ⟨some (str "a.ts"), none, some (str "critical"), some (str "x")⟩ [] rfl

/-- C1: a projected comment is only ever emitted for an added diff line,
never for a context or removed line: when resolution reports a valid change
line, the raw line it inspected starts with `'+'` and is neither the
`'+++ b/'` file marker, a context line, nor a removed line; a reference
whose target raw line starts with `'-'` always resolves with
`is_valid_change_line = false` (so that comment is dropped); and every
comment of the projected output resolved to such an added line. -/
theorem c1_projection_only_added_lines (d nl fp : PyStr) (cs : List RawComment) :
    (∀ n : Int, extract_file_line_number nl d fp = (n, true) →
      ∃ t, targetLine nl d = some t ∧ pyStartsWith t strPlus = true ∧
        pyStartsWith t strPPPb = false ∧ pyStartsWith t strSpace = false ∧
        pyStartsWith t strMinus = false) ∧
    (∀ t, targetLine nl d = some t → pyStartsWith t strMinus = true →
      extract_file_line_number nl d fp = (0, false)) ∧
    (∀ (ps : List ProjectedComment) (p : ProjectedComment),
      projectComments d cs = .ok ps → p ∈ ps →
      ∃ c ∈ cs, ∃ fp2 t, c.file_path = some fp2 ∧
        targetLine (c.numbered_line.getD str001) d = some t ∧
        pyStartsWith t strPlus = true ∧ pyStartsWith t strPPPb = false) := by
  refine ⟨?_, ?_, ?_⟩
  · intro n h
    exact extract_valid_added h
  · intro t htl hminus
    rcases extract_cases nl d fp with htrue | hfalse
    · exfalso
      have hext : extract_file_line_number nl d fp =
          ((extract_file_line_number nl d fp).1, true) := by rw [← htrue]
      obtain ⟨t2, htl2, -, -, -, hmn2⟩ := extract_valid_added hext
      rw [htl] at htl2
      obtain rfl := Option.some.inj htl2
      rw [hminus] at hmn2
      exact Bool.noConfusion hmn2
    · exact hfalse
  · intro ps p hok hp
    obtain ⟨c, hc, fp2, lv, cm, hfp, hlv, hcm, hext, hpos, hpeq⟩ :=
      projectComments_mem cs ps p hok hp
    obtain ⟨t, htl, hplus, hppp, -, -⟩ := extract_valid_added hext
    exact ⟨c, hc, fp2, t, hfp, htl, hplus, hppp⟩

/-- C1 witness: on a diff with a removed and an added line, the added-line
reference resolves to an added target, while the removed-line reference
resolves invalid. -/
theorem c1_witness :
    (∃ t, targetLine (str "4") (str "+++ b/a.ts\n@@ -1,1 +1,2 @@\n-old\n+new") = some t ∧
      pyStartsWith t strPlus = true ∧ pyStartsWith t strPPPb = false ∧
      pyStartsWith t strSpace = false ∧ pyStartsWith t strMinus = false) ∧
    extract_file_line_number (str "3") (str "+++ b/a.ts\n@@ -1,1 +1,2 @@\n-old\n+new")
      (str "a.ts") = (0, false) :=
  ⟨(c1_projection_only_added_lines (str "+++ b/a.ts\n@@ -1,1 +1,2 @@\n-old\n+new")
      (str "4") (str "a.ts") []).1 1 (by decide),
   (c1_projection_only_added_lines (str "+++ b/a.ts\n@@ -1,1 +1,2 @@\n-old\n+new")
      (str "3") (str "a.ts") []).2.1 (str "-old") (by decide) (by decide)⟩

/-- C7: every projected comment carries side `"RIGHT"`, and its body is
exactly the concatenation `"**" + LEVEL + "**: " + comment` with the level
token uppercased and no additional escaping; concretely, level `'critical'`
with comment `'missing null check'` formats to exactly
`'**CRITICAL**: missing null check'`. -/
theorem c7_body_format_and_side (d : PyStr) :
    (∀ (cs : List RawComment) (ps : List ProjectedComment) (p : ProjectedComment),
      projectComments d cs = .ok ps → p ∈ ps →
      p.side = strRIGHT ∧
      ∃ c ∈ cs, ∃ lv cm, c.level = some lv ∧ c.comment = some cm ∧
        p.body = fmtBody lv cm ∧
        fmtBody lv cm = ['*', '*'] ++ pyUpper lv ++ ['*', '*', ':', ' '] ++ cm) ∧
    fmtBody (str "critical") (str "missing null check") =
      str "**CRITICAL**: missing null check" := by
  constructor
  · intro cs ps p hok hp
    obtain ⟨c, hc, fp, lv, cm, hfp, hlv, hcm, hext, hpos, hpeq⟩ :=
      projectComments_mem cs ps p hok hp
    refine ⟨by rw [hpeq], c, hc, lv, cm, hlv, hcm, by rw [hpeq], rfl⟩
  · decide

/-- C7 witness: a concrete critical comment on an added line projects with
side `RIGHT` and the exactly formatted body. -/
theorem c7_witness :
    (⟨str "a.ts", 1, strRIGHT, str "**CRITICAL**: missing null check"⟩ : ProjectedComment).side
        = strRIGHT ∧
      ∃ c ∈ [(⟨some (str "a.ts"), some (str "3"), some (str "critical"),
          some (str "missing null check")⟩ : RawComment)],
        ∃ lv cm, c.level = some lv ∧ c.comment = some cm ∧
          (⟨str "a.ts", 1, strRIGHT,
            str "**CRITICAL**: missing null check"⟩ : ProjectedComment).body = fmtBody lv cm ∧
          fmtBody lv cm = ['*', '*'] ++ pyUpper lv ++ ['*', '*', ':', ' '] ++ cm :=
  (c7_body_format_and_side (str "+++ b/a.ts\n@@ -1,0 +1,2 @@\n+aa\n+bb")).1
    [⟨some (str "a.ts"), some (str "3"), some (str "critical"), some (str "missing null check")⟩]
    [⟨str "a.ts", 1, strRIGHT, str "**CRITICAL**: missing null check"⟩]
    ⟨str "a.ts", 1, strRIGHT, str "**CRITICAL**: missing null check"⟩
    (by rfl) (List.mem_singleton.mpr rfl)

/-- C8: on a batch of structurally well-formed raw comments (all required
keys present), the projection loop returns exactly the input list filtered
through the per-comment projection, in input order: `List.filterMap` keeps
the relative order of kept elements, drops exactly the unresolvable ones, and
performs no deduplication, so duplicate comments each pass through. -/
theorem c8_projection_is_order_preserving_filter (d : PyStr) (cs : List RawComment)
    (h : ∀ c ∈ cs, c.file_path.isSome = true ∧ c.level.isSome = true ∧
      c.comment.isSome = true) :
    projectComments d cs = .ok (cs.filterMap (projectOne d)) :=
  projectComments_filterMap cs h

/-- C8 witness: `[c1(valid), c2(invalid reference), c1(duplicate of c1)]`
projects to the order-preserving filtered list — `c2` is dropped and the
duplicate `c1` appears twice. -/
theorem c8_witness :
    projectComments (str "+++ b/a.ts\n@@ -1,0 +1,2 @@\n+aa\n+bb")
      [⟨some (str "a.ts"), some (str "3"), some (str "critical"), some (str "x")⟩,
       ⟨some (str "a.ts"), some (str "99"), some (str "suggestion"), some (str "y")⟩,
       ⟨some (str "a.ts"), some (str "3"), some (str "critical"), some (str "x")⟩] =
      .ok ([⟨some (str "a.ts"), some (str "3"), some (str "critical"), some (str "x")⟩,
       ⟨some (str "a.ts"), some (str "99"), some (str "suggestion"), some (str "y")⟩,
       ⟨some (str "a.ts"), some (str "3"), some (str "critical"), some (str "x")⟩].filterMap
        (projectOne (str "+++ b/a.ts\n@@ -1,0 +1,2 @@\n+aa\n+bb"))) :=
  c8_projection_is_order_preserving_filter _ _ (by decide)

/-- C3 (amended): in a well-formed file section — a scanned prefix that ends
with the file's `'+++ b/'` marker (so `current_file = file_path`), a parsable
hunk header, and no further header or file marker up to the target — the
reference of an *added* line resolves to
`new_start - 1 + (count of added and context lines from the hunk header up to
and including that line)`, so the added lines of each hunk resolve to a
contiguous increasing run starting at the declared new-range start.  (The
claim's inclusion of context lines fails: a context-line reference is
rejected by the `is_change_line` check — see the counterexample.) -/
theorem c3_added_lines_contiguous_run (d fp ref header target : PyStr)
    (pfx mid : List PyStr) (ns n0 : Int)
    (hlines : pyLines d = pfx ++ header :: mid ++ [target])
    (hpre : foldSteps fp none 0 pfx = .ok (some fp, n0))
    (hhdr : pyStartsWith header strAtAt = true)
    (hns : hunkNewStart header = .ok (some ns))
    (hmid : ∀ l ∈ mid, pyStartsWith l strAtAt = false ∧ pyStartsWith l strPPPb = false)
    (htp : pyStartsWith target strPlus = true)
    (htb : pyStartsWith target strPPPb = false)
    (href : pyInt? ref = some ((pfx.length : Int) + (mid.length : Int) + 2)) :
    extract_file_line_number ref d fp =
      (ns - 1 + (((mid ++ [target]).countP isContentLine : Nat) : Int), true) := by
  have hassoc : pfx ++ header :: mid ++ [target] = (pfx ++ header :: mid) ++ [target] := by
    simp
  have hlen : (pyLines d).length = pfx.length + mid.length + 2 := by
    rw [hlines]
    simp only [List.length_append, List.length_cons, List.length_nil]
    omega
  have hAt : pyStartsWith target strAtAt = false :=
    @pyStartsWith_head_ne target '+' '@' [] ['@'] (by decide) htp
  have hfold1 : foldSteps fp none 0 (pfx ++ header :: mid)
      = .ok (some fp, ns - 1 + ((mid.countP isContentLine : Nat) : Int)) := by
    rw [foldSteps_append]
    simp only [hpre]
    simp only [foldSteps, lineStep_header hhdr hns]
    exact foldSteps_content mid (ns - 1) hmid
  have htoNat : (((pfx.length : Int) + (mid.length : Int) + 2)).toNat
      = (pfx ++ header :: mid).length + 1 := by
    simp only [List.length_append, List.length_cons, List.length_nil]
    omega
  have hscan : scanFrom fp (pyLines d)
        ((pfx.length : Int) + (mid.length : Int) + 2).toNat none 0
      = .ok (ns - 1 + ((mid.countP isContentLine : Nat) : Int) + 1, true) := by
    rw [hlines, hassoc, htoNat,
      scanFrom_append (pfx ++ header :: mid) [target] 1 none 0 (le_refl 1)]
    simp only [hfold1]
    rw [scanFrom_one]
    simp only [lineStep_content htb hAt (Or.inl htp)]
    simp
  have hbound : ¬(((pfx.length : Int) + (mid.length : Int) + 2)
      > ((pyLines d).length : Int)) := by
    rw [hlen]; push_cast; omega
  have hidx : pyIndex (pyLines d) (((pfx.length : Int) + (mid.length : Int) + 2) - 1)
      = some target := by
    rw [hlines, hassoc]
    have hl2 : ((pfx.length : Int) + (mid.length : Int) + 2) - 1
        = (((pfx ++ header :: mid).length : Nat) : Int) := by
      simp only [List.length_append, List.length_cons, List.length_nil]
      push_cast
      omega
    rw [hl2]
    exact pyIndex_append
  have hcontent : isContentLine target = true := by
    unfold isContentLine
    rw [htp]
    rfl
  have hcount : ((mid ++ [target]).countP isContentLine : Nat)
      = mid.countP isContentLine + 1 := by
    rw [List.countP_append]
    simp [List.countP_cons, hcontent]
  simp only [extract_file_line_number, href]
  rw [if_neg hbound]
  simp only [hidx]
  rw [if_neg (by simp [htp])]
  simp only [hscan]
  rw [hcount]
  simp only [Prod.mk.injEq]
  refine ⟨by push_cast; ring, trivial⟩

/-- C3 witness: in a two-file-style well-formed diff section for `a.ts` with
new-range start 10, the third content line after the header (an added line)
resolves to line 12 — the contiguous run 10, 11, 12. -/
theorem c3_witness :
    extract_file_line_number (str "7")
      (str "diff --git a/a.ts b/a.ts\n--- a/a.ts\n+++ b/a.ts\n@@ -1,1 +10,3 @@\n ctx\n+a1\n+a2")
      (str "a.ts")
      = (10 - 1 + ((([str " ctx", str "+a1"] ++ [str "+a2"]).countP isContentLine : Nat) : Int),
         true) :=
  c3_added_lines_contiguous_run
    (str "diff --git a/a.ts b/a.ts\n--- a/a.ts\n+++ b/a.ts\n@@ -1,1 +10,3 @@\n ctx\n+a1\n+a2")
    (str "a.ts") (str "7") (str "@@ -1,1 +10,3 @@") (str "+a2")
    [str "diff --git a/a.ts b/a.ts", str "--- a/a.ts", str "+++ b/a.ts"]
    [str " ctx", str "+a1"] 10 0
    (by decide) (by rfl) (by decide) (by rfl) (by decide) (by decide) (by decide) (by decide)

/-- C3 counterexample: in the same well-formed shape, the reference of a
*context* line (raw line 5, the hunk's first content line, whose new-file
number would be `new_start - 1 + 1 = 1`) does not resolve to `(1, true)` as
the claim's "added or context line" wording asserts — it fails the
`is_change_line` check and returns `(0, false)`. -/
theorem c3_counterexample :
    extract_file_line_number (str "5")
      (str "diff --git a/a.ts b/a.ts\n--- a/a.ts\n+++ b/a.ts\n@@ -1,1 +1,2 @@\n ctx\n+new\n")
      (str "a.ts") = (0, false) ∧
    ¬ (extract_file_line_number (str "5")
      (str "diff --git a/a.ts b/a.ts\n--- a/a.ts\n+++ b/a.ts\n@@ -1,1 +1,2 @@\n ctx\n+new\n")
      (str "a.ts") = (1, true)) := by
  constructor
  · decide
  · decide

/-- C6 (amended): header tolerance is partial.  A line is treated as a hunk
header only when it begins with `'@@'`.  A header whose space-split has fewer
than three parts, or whose third part does not begin with `'+'` (as when the
old-range segment is absent and the fields shift), is tolerated:
`new_line_num` is left unchanged and the scan continues with the next line.
But when the third part begins with `'+'` and its new-range start is
unparseable as an integer, `int()` raises `ValueError`; the enclosing `try`
catches it and the whole call returns `(0, false)` — resolution for that
reference is aborted softly rather than continuing with best-effort line
numbers (see the counterexample). -/
theorem c6_malformed_hunk_header (fp : PyStr) :
    (∀ (cur : Option PyStr) (n : Int) (line : PyStr),
      pyStartsWith line strAtAt = true → hunkNewStart line = .ok none →
      lineStep fp cur n line = .state cur n false) ∧
    (∀ (nl d : PyStr) (L : Int) (pfx : List PyStr) (line : PyStr) (rest : List PyStr)
      (cur0 : Option PyStr) (n0 : Int),
      pyLines d = pfx ++ line :: rest →
      foldSteps fp none 0 pfx = .ok (cur0, n0) →
      pyStartsWith line strAtAt = true → hunkNewStart line = .error () →
      pyInt? nl = some L → (pfx.length : Int) < L →
      extract_file_line_number nl d fp = (0, false)) := by
  constructor
  · intro cur n line h2 hh
    exact lineStep_header_skip h2 hh
  · intro nl d L pfx line rest cur0 n0 hlines hpre h2 hh hL hlt
    have hscan : scanFrom fp (pyLines d) L.toNat none 0 = .error () := by
      obtain ⟨j, hj⟩ : ∃ j, L.toNat - pfx.length = j + 1 :=
        ⟨L.toNat - pfx.length - 1, by omega⟩
      have hk : L.toNat = pfx.length + (j + 1) := by omega
      rw [hlines, hk, scanFrom_append pfx (line :: rest) (j + 1) none 0 (by omega)]
      simp only [hpre]
      simp only [scanFrom, lineStep_header_err h2 hh]
    simp only [extract_file_line_number, hL]
    split
    · rfl
    · split
      · rfl
      · split
        · rfl
        · simp only [hscan]

/-- C6 witness: the header `'@@ +1,2 @@'` (old-range segment absent, so the
third space-separated field is `'@@'`) is tolerated with the state unchanged,
while the header `'@@ -1,2 +x,3 @@'` (unparseable new-range start) makes the
resolution of the following added line return `(0, false)`. -/
theorem c6_witness :
    lineStep (str "a.ts") (some (str "a.ts")) 5 (str "@@ +1,2 @@")
        = .state (some (str "a.ts")) 5 false ∧
    extract_file_line_number (str "3") (str "+++ b/a.ts\n@@ -1,2 +x,3 @@\n+foo")
        (str "a.ts") = (0, false) :=
  ⟨(c6_malformed_hunk_header (str "a.ts")).1 (some (str "a.ts")) 5 (str "@@ +1,2 @@")
      (by decide) (by rfl),
   (c6_malformed_hunk_header (str "a.ts")).2 (str "3")
      (str "+++ b/a.ts\n@@ -1,2 +x,3 @@\n+foo") 3
      [str "+++ b/a.ts"] (str "@@ -1,2 +x,3 @@") [str "+foo"] (some (str "a.ts")) 0
      (by decide) (by rfl) (by decide) (by rfl) (by decide) (by decide)⟩

/-- C6 counterexample: after the malformed header `'@@ -1,2 +x,3 @@'`
(new-range start unparseable as an integer), indexing does not continue with
best-effort numbers: had `next_new_line_number` been left unchanged at 0 and
the scan continued, the added line `'+foo'` would resolve to `(1, true)`, but
the caught `ValueError` makes the whole call return `(0, false)` instead. -/
theorem c6_counterexample :
    extract_file_line_number (str "3") (str "+++ b/a.ts\n@@ -1,2 +x,3 @@\n+foo")
        (str "a.ts") ≠ (1, true) ∧
    extract_file_line_number (str "3") (str "+++ b/a.ts\n@@ -1,2 +x,3 @@\n+foo")
        (str "a.ts") = (0, false) := ⟨by decide, by decide⟩

end LLMReview
